import Mathlib

/-!
# Verification of the termplot Braille canvas engine and chart layer

A shallow embedding of `src/canvas.rs` and `src/charts.rs` (crate `termplot`).

Modelling conventions:
* `usize` becomes `Nat`; `usize` saturating subtraction is `Nat` subtraction.
* `isize` becomes `Int`; Rust `as usize` on an `isize` is reduction modulo `2^64`
  (`usize_of_int`); Rust `isize` division truncates toward zero (`Int.tdiv`).
* `u8` bytes are `Nat`s that the operations keep below 256; the `u8` bitwise
  complement `!m` is `255 ^^^ m`.
* `Vec<T>` becomes `List T`; the out-of-bounds guards in the source make every
  index access in-bounds, so `List.set` / `List.getD` coincide with Rust `[ ]`.
* Rust `String` / `fmt::Write` sinks become `List Char` accumulators.
* The two `loop`s of the source whose termination is an algorithmic fact
  (Cohen–Sutherland clipping, Bresenham stepping) are given explicit fuel that
  dominates their real iteration counts; the `while` loops of the circle
  rasterizers terminate structurally and are translated by well-founded
  recursion on their loop measure.
* `f64` is modelled exactly: a rational together with the special values
  `nan`, `posInf`, `negInf`, with IEEE comparison/min/max semantics.  Every
  concrete value appearing in the claims is exact in binary64 as well.
-/

/-- The `colored::Color` enum, as consumed by `write_ansi_color`. -/
inductive Color where
  | black | red | green | yellow | blue | magenta | cyan | white
  | brightBlack | brightRed | brightGreen | brightYellow
  | brightBlue | brightMagenta | brightCyan | brightWhite
  | trueColor (r g b : Nat)
  deriving DecidableEq

/-- `ColorBlend` from `canvas.rs`. -/
inductive ColorBlend where
  | overwrite
  | keepFirst
  deriving DecidableEq

/-- `BrailleCanvas` from `canvas.rs`: cell dimensions, blend mode, and the three
parallel per-cell buffers (Braille bitmask, optional color, text override). -/
structure BrailleCanvas where
  width : Nat
  height : Nat
  blend_mode : ColorBlend
  buffer : List Nat
  colors : List (Option Color)
  text_layer : List (Option Char)
  deriving DecidableEq

/-- Rust `x as usize` for `x : isize`: reduction modulo `2^64`. -/
def usize_of_int (x : Int) : Nat := (x % (2 ^ 64 : Int)).toNat

namespace BrailleCanvas

/-- `BrailleCanvas::new`. -/
def new (width height : Nat) : BrailleCanvas :=
  let size := width * height
  { width := width
    height := height
    blend_mode := ColorBlend.overwrite
    buffer := List.replicate size 0
    colors := List.replicate size none
    text_layer := List.replicate size none }

/-- `pixel_width`: always `width * 2`. -/
def pixel_width (c : BrailleCanvas) : Nat := c.width * 2

/-- `pixel_height`: always `height * 4`. -/
def pixel_height (c : BrailleCanvas) : Nat := c.height * 4

/-- `clear`: reset the three buffers in place. -/
def clear (c : BrailleCanvas) : BrailleCanvas :=
  { c with
    buffer := List.replicate c.buffer.length 0
    colors := List.replicate c.colors.length none
    text_layer := List.replicate c.text_layer.length none }

/-- `idx`: row-major cell index. -/
def idx (c : BrailleCanvas) (col row : Nat) : Nat := row * c.width + col

/-- `get_mask`: the Braille bit for a sub-pixel position inside one cell. -/
def get_mask (sub_x sub_y : Nat) : Nat :=
  match sub_x, sub_y with
  | 0, 0 => 0x01
  | 1, 0 => 0x08
  | 0, 1 => 0x02
  | 1, 1 => 0x10
  | 0, 2 => 0x04
  | 1, 2 => 0x20
  | 0, 3 => 0x40
  | 1, 3 => 0x80
  | _, _ => 0

/-- `set_pixel_impl`: screen-space set with bounds guard and blend policy. -/
def set_pixel_impl (c : BrailleCanvas) (px py : Nat) (color : Option Color) :
    BrailleCanvas :=
  if px ≥ c.pixel_width ∨ py ≥ c.pixel_height then c
  else
    let index := c.idx (px / 2) (py / 4)
    let buffer' := c.buffer.set index (c.buffer.getD index 0 ||| get_mask (px % 2) (py % 4))
    let colors' :=
      match color with
      | none => c.colors
      | some v =>
        match c.blend_mode with
        | ColorBlend.overwrite => c.colors.set index (some v)
        | ColorBlend.keepFirst =>
          if c.colors.getD index none = none then c.colors.set index (some v) else c.colors
    { c with buffer := buffer', colors := colors' }

/-- `unset_pixel_impl`: screen-space unset; clears the cell color when the
resulting byte is zero. -/
def unset_pixel_impl (c : BrailleCanvas) (px py : Nat) : BrailleCanvas :=
  if px ≥ c.pixel_width ∨ py ≥ c.pixel_height then c
  else
    let index := c.idx (px / 2) (py / 4)
    let b := c.buffer.getD index 0 &&& (255 ^^^ get_mask (px % 2) (py % 4))
    let colors' := if b = 0 then c.colors.set index none else c.colors
    { c with buffer := c.buffer.set index b, colors := colors' }

/-- `set_pixel` (cartesian): inverts y by saturating subtraction, then
delegates to `set_pixel_impl`. -/
def set_pixel (c : BrailleCanvas) (x y : Nat) (color : Option Color) : BrailleCanvas :=
  c.set_pixel_impl x (c.pixel_height - 1 - y) color

/-- `set_pixel_screen`. -/
def set_pixel_screen (c : BrailleCanvas) (x y : Nat) (color : Option Color) : BrailleCanvas :=
  c.set_pixel_impl x y color

/-- `unset_pixel` (cartesian). -/
def unset_pixel (c : BrailleCanvas) (x y : Nat) : BrailleCanvas :=
  c.unset_pixel_impl x (c.pixel_height - 1 - y)

/-- `unset_pixel_screen`. -/
def unset_pixel_screen (c : BrailleCanvas) (x y : Nat) : BrailleCanvas :=
  c.unset_pixel_impl x y

/-- `toggle_pixel_screen`: test the bit, then unset or set. -/
def toggle_pixel_screen (c : BrailleCanvas) (x y : Nat) (color : Option Color) :
    BrailleCanvas :=
  if x ≥ c.pixel_width ∨ y ≥ c.pixel_height then c
  else
    let index := c.idx (x / 2) (y / 4)
    let mask := get_mask (x % 2) (y % 4)
    if c.buffer.getD index 0 &&& mask ≠ 0 then c.unset_pixel_impl x y
    else c.set_pixel_impl x y color

/-- `compute_outcode`: Cohen–Sutherland 4-bit region code. -/
def compute_outcode (c : BrailleCanvas) (x y : Int) : Nat :=
  let w : Int := c.pixel_width
  let h : Int := c.pixel_height
  (if x < 0 then 1 else if x ≥ w then 2 else 0) |||
    (if y < 0 then 4 else if y ≥ h then 8 else 0)

/-- The clipping `loop` of `bresenham`, with fuel (the source loop terminates
because every pass moves an endpoint onto a violated boundary; the fuel given
at the call site dominates the real iteration count). -/
def clip_loop (c : BrailleCanvas) :
    Nat → Int → Int → Int → Int → Nat → Nat → Option (Int × Int × Int × Int)
  | 0, _, _, _, _, _, _ => none
  | fuel + 1, x0, y0, x1, y1, outcode0, outcode1 =>
    if outcode0 ||| outcode1 = 0 then some (x0, y0, x1, y1)
    else if outcode0 &&& outcode1 ≠ 0 then none
    else
      let w : Int := c.pixel_width
      let h : Int := c.pixel_height
      let oc := if outcode0 ≠ 0 then outcode0 else outcode1
      let p : Int × Int :=
        if oc &&& 8 ≠ 0 then (x0 + Int.tdiv ((x1 - x0) * (h - 1 - y0)) (y1 - y0), h - 1)
        else if oc &&& 4 ≠ 0 then (x0 + Int.tdiv ((x1 - x0) * (0 - y0)) (y1 - y0), 0)
        else if oc &&& 2 ≠ 0 then (w - 1, y0 + Int.tdiv ((y1 - y0) * (w - 1 - x0)) (x1 - x0))
        else if oc &&& 1 ≠ 0 then (0, y0 + Int.tdiv ((y1 - y0) * (0 - x0)) (x1 - x0))
        else (0, 0)
      if oc = outcode0 then
        clip_loop c fuel p.1 p.2 x1 y1 (c.compute_outcode p.1 p.2) outcode1
      else
        clip_loop c fuel x0 y0 p.1 p.2 outcode0 (c.compute_outcode p.1 p.2)

/-- The Bresenham stepping `loop` of `bresenham`, with fuel (the source walk
takes `max |dx| |dy| + 1` iterations; the fuel given at the call site is
`|dx| + |dy| + 1`). -/
def bres_walk (x1 y1 sx sy dx dy : Int) (color : Option Color) (cartesian : Bool) :
    Nat → BrailleCanvas → Int → Int → Int → BrailleCanvas
  | 0, c, _, _, _ => c
  | fuel + 1, c, x, y, err =>
    let c1 :=
      if cartesian then c.set_pixel (usize_of_int x) (usize_of_int y) color
      else c.set_pixel_screen (usize_of_int x) (usize_of_int y) color
    if x = x1 ∧ y = y1 then c1
    else
      let e2 := 2 * err
      let s1 : Int × Int := if e2 ≥ dy then (err + dy, x + sx) else (err, x)
      let s2 : Int × Int := if e2 ≤ dx then (s1.1 + dx, y + sy) else (s1.1, y)
      bres_walk x1 y1 sx sy dx dy color cartesian fuel c1 s1.2 s2.2 s2.1

/-- `bresenham`: Cohen–Sutherland clipping followed by integer Bresenham. -/
def bresenham (c : BrailleCanvas) (x0 y0 x1 y1 : Int) (color : Option Color)
    (cartesian : Bool) : BrailleCanvas :=
  match clip_loop c 100 x0 y0 x1 y1 (c.compute_outcode x0 y0) (c.compute_outcode x1 y1) with
  | none => c
  | some (a0, b0, a1, b1) =>
    let dx : Int := (a1 - a0).natAbs
    let dy : Int := -((b1 - b0).natAbs : Int)
    let sx : Int := if a0 < a1 then 1 else -1
    let sy : Int := if b0 < b1 then 1 else -1
    bres_walk a1 b1 sx sy dx dy color cartesian
      ((a1 - a0).natAbs + (b1 - b0).natAbs + 1) c a0 b0 (dx + dy)

/-- `line` (cartesian addressing). -/
def line (c : BrailleCanvas) (x0 y0 x1 y1 : Int) (color : Option Color) : BrailleCanvas :=
  c.bresenham x0 y0 x1 y1 color true

/-- `line_screen` (screen addressing). -/
def line_screen (c : BrailleCanvas) (x0 y0 x1 y1 : Int) (color : Option Color) :
    BrailleCanvas :=
  c.bresenham x0 y0 x1 y1 color false

/-- `rect`: four border lines in screen space. -/
def rect (c : BrailleCanvas) (x y : Int) (w h : Nat) (color : Option Color) :
    BrailleCanvas :=
  let x1 := x + (w : Int) - 1
  let y1 := y + (h : Int) - 1
  ((((c.line_screen x y x1 y color).line_screen x1 y x1 y1 color).line_screen
      x1 y1 x y1 color).line_screen x y1 x y color)

/-- `rect_filled`: one horizontal line per row `cy` in `y..y+h`. -/
def rect_filled (c : BrailleCanvas) (x y : Int) (w h : Nat) (color : Option Color) :
    BrailleCanvas :=
  (List.range h).foldl
    (fun a i => a.line_screen x (y + (i : Int)) (x + (w : Int) - 1) (y + (i : Int)) color) c

/-- The `draw_octants` closure of `circle`: plot the 8 symmetric points,
skipping negative coordinates. -/
def draw_octants (c : BrailleCanvas) (cx cy x y : Int) (color : Option Color) :
    BrailleCanvas :=
  let points : List (Int × Int) :=
    [(cx + x, cy + y), (cx - x, cy + y), (cx + x, cy - y), (cx - x, cy - y),
     (cx + y, cy + x), (cx - y, cy + x), (cx + y, cy - x), (cx - y, cy - x)]
  points.foldl
    (fun a p => if p.1 ≥ 0 ∧ p.2 ≥ 0 then a.set_pixel p.1.toNat p.2.toNat color else a) c

/-- The midpoint `while y >= x` loop of `circle`. -/
def circle_loop (cx cy : Int) (color : Option Color) (x y d : Int)
    (c : BrailleCanvas) : BrailleCanvas :=
  if h : y ≥ x then
    if d > 0 then
      circle_loop cx cy color (x + 1) (y - 1) (d + 4 * ((x + 1) - (y - 1)) + 10)
        (draw_octants c cx cy (x + 1) (y - 1) color)
    else
      circle_loop cx cy color (x + 1) y (d + 4 * (x + 1) + 6)
        (draw_octants c cx cy (x + 1) y color)
  else c
termination_by (y + 1 - x).toNat
decreasing_by
  · omega
  · omega

/-- `circle`: midpoint circle algorithm, stroke. -/
def circle (c : BrailleCanvas) (xc yc r : Int) (color : Option Color) : BrailleCanvas :=
  circle_loop xc yc color 0 r (3 - 2 * r) (draw_octants c xc yc 0 r color)

/-- The `draw_lines` closure of `circle_filled`: four horizontal spans. -/
def draw_lines (c : BrailleCanvas) (cx cy x y : Int) (color : Option Color) :
    BrailleCanvas :=
  ((((c.line (cx - x) (cy + y) (cx + x) (cy + y) color).line
      (cx - x) (cy - y) (cx + x) (cy - y) color).line
      (cx - y) (cy + x) (cx + y) (cy + x) color).line
      (cx - y) (cy - x) (cx + y) (cy - x) color)

/-- The midpoint `while y >= x` loop of `circle_filled`. -/
def circle_filled_loop (cx cy : Int) (color : Option Color) (x y d : Int)
    (c : BrailleCanvas) : BrailleCanvas :=
  if h : y ≥ x then
    if d > 0 then
      circle_filled_loop cx cy color (x + 1) (y - 1) (d + 4 * ((x + 1) - (y - 1)) + 10)
        (draw_lines c cx cy (x + 1) (y - 1) color)
    else
      circle_filled_loop cx cy color (x + 1) y (d + 4 * (x + 1) + 6)
        (draw_lines c cx cy (x + 1) y color)
  else c
termination_by (y + 1 - x).toNat
decreasing_by
  · omega
  · omega

/-- `circle_filled`: midpoint circle algorithm, filled by spans. -/
def circle_filled (c : BrailleCanvas) (xc yc r : Int) (color : Option Color) :
    BrailleCanvas :=
  circle_filled_loop xc yc color 0 r (3 - 2 * r) (draw_lines c xc yc 0 r color)

/-- `set_char`: write a text-layer override (row inverted, cartesian rows);
a supplied color is stored unconditionally, ignoring the blend mode. -/
def set_char (c : BrailleCanvas) (col row : Nat) (ch : Char) (color : Option Color) :
    BrailleCanvas :=
  let inverted_row := c.height - 1 - row
  if col < c.width ∧ inverted_row < c.height then
    let i := c.idx col inverted_row
    let colors' :=
      match color with
      | some v => c.colors.set i (some v)
      | none => c.colors
    { c with text_layer := c.text_layer.set i (some ch), colors := colors' }
  else c

/-- `write_ansi_color`: the ANSI SGR bytes for one color. -/
def write_ansi_color (color : Color) : List Char :=
  match color with
  | Color.black => "\x1b[30m".data
  | Color.red => "\x1b[31m".data
  | Color.green => "\x1b[32m".data
  | Color.yellow => "\x1b[33m".data
  | Color.blue => "\x1b[34m".data
  | Color.magenta => "\x1b[35m".data
  | Color.cyan => "\x1b[36m".data
  | Color.white => "\x1b[37m".data
  | Color.brightBlack => "\x1b[90m".data
  | Color.brightRed => "\x1b[91m".data
  | Color.brightGreen => "\x1b[92m".data
  | Color.brightYellow => "\x1b[93m".data
  | Color.brightBlue => "\x1b[94m".data
  | Color.brightMagenta => "\x1b[95m".data
  | Color.brightCyan => "\x1b[96m".data
  | Color.brightWhite => "\x1b[97m".data
  | Color.trueColor r g b =>
    "\x1b[38;2;".data ++ Nat.toDigits 10 r ++ [';'] ++ Nat.toDigits 10 g ++ [';'] ++
      Nat.toDigits 10 b ++ ['m']

/-- Rust `std::char::from_u32(n).unwrap_or(dflt)`. -/
def char_from_u32_or (n : Nat) (dflt : Char) : Char :=
  if n < 0xD800 ∨ (0xDFFF < n ∧ n < 0x110000) then Char.ofNat n else dflt

/-- The per-cell glyph selection of `render_to`: text override, otherwise the
Braille glyph at code point `0x2800 + mask`. -/
def cell_char (c : BrailleCanvas) (i : Nat) : Char :=
  match c.text_layer.getD i none with
  | some ch => ch
  | none => char_from_u32_or (0x2800 + c.buffer.getD i 0) ' '

/-- The inner column loop of `render_to`: the state is the output accumulator
together with the differential `last_color`. -/
def render_cols (c : BrailleCanvas) (row : Nat) (st : List Char × Option Color) :
    List Char × Option Color :=
  (List.range c.width).foldl
    (fun st col =>
      let i := c.idx col row
      let cur := c.colors.getD i none
      let st1 :=
        if cur = st.2 then st
        else
          (st.1 ++ (match cur with
                    | some v => write_ansi_color v
                    | none => "\x1b[0m".data), cur)
      (st1.1 ++ [cell_char c i], st1.2))
    st

/-- One body row of `render_to`: optional border, cells, end-of-row color
reset, optional border, newline. -/
def render_row (c : BrailleCanvas) (show_border : Bool) (row : Nat)
    (st : List Char × Option Color) : List Char × Option Color :=
  let st0 := if show_border then (st.1 ++ ['│'], st.2) else st
  let st1 := render_cols c row st0
  let st2 := if st1.2.isSome then (st1.1 ++ "\x1b[0m".data, none) else st1
  let st3 := if show_border then (st2.1 ++ ['│'], st2.2) else st2
  (st3.1 ++ ['\n'], st3.2)

/-- Rust `format ... :^width$ ...` centering: pad with spaces to `w`, the extra
space going to the right. -/
def center_line (t : List Char) (w : Nat) : List Char :=
  let pad := w - t.length
  List.replicate (pad / 2) ' ' ++ t ++ List.replicate (pad - pad / 2) ' '

/-- `render_to`: optional centered title line, optional box border, body rows
with differential ANSI color emission.  The `fmt::Write` sink is modelled as a
`List Char` accumulator (writes into a `String` sink cannot fail). -/
def render_to (c : BrailleCanvas) (show_border : Bool) (title : Option (List Char)) :
    List Char :=
  let acc0 : List Char :=
    match title with
    | some t => center_line t (c.width + 2) ++ ['\n']
    | none => []
  let acc1 :=
    if show_border then acc0 ++ ['┌'] ++ List.replicate c.width '─' ++ ['┐', '\n']
    else acc0
  let st :=
    (List.range c.height).foldl (fun st row => render_row c show_border row st)
      (acc1, (none : Option Color))
  if show_border then st.1 ++ ['└'] ++ List.replicate c.width '─' ++ ['┘'] else st.1

/-- `render_with_options`. -/
def render_with_options (c : BrailleCanvas) (show_border : Bool)
    (title : Option (List Char)) : List Char :=
  c.render_to show_border title

/-- `render`: bordered, no title. -/
def render (c : BrailleCanvas) : List Char :=
  c.render_with_options true none

/-- A `render()` method call on a borrowed receiver, in state-passing form:
the returned state is the receiver, which a `&self` method cannot mutate. -/
def render_call (c : BrailleCanvas) : List Char × BrailleCanvas :=
  (c.render, c)

/-- `render_no_color`: glyphs and newlines only. -/
def render_no_color (c : BrailleCanvas) : List Char :=
  (List.range c.height).foldl
    (fun acc row =>
      (List.range c.width).foldl
        (fun acc col =>
          acc ++ [char_from_u32_or (0x2800 + c.buffer.getD (c.idx col row) 0) ' '])
        acc ++ ['\n'])
    []

end BrailleCanvas

/-! ## The chart layer (`charts.rs`): exact model of the `f64` values it uses -/

/-- IEEE binary64 values, modelled exactly: a finite value is an exact
rational; the claims of the spec only involve values on which binary64
arithmetic is exact. -/
inductive F64 where
  | finite (q : ℚ)
  | posInf
  | negInf
  | nan
  deriving DecidableEq

namespace F64

/-- `f64::is_finite`. -/
def is_finite : F64 → Bool
  | finite _ => true
  | _ => false

/-- `f64::min` (ignores NaN). -/
def fmin : F64 → F64 → F64
  | nan, b => b
  | a, nan => a
  | negInf, _ => negInf
  | _, negInf => negInf
  | a, posInf => a
  | posInf, b => b
  | finite a, finite b => finite (min a b)

/-- `f64::max` (ignores NaN). -/
def fmax : F64 → F64 → F64
  | nan, b => b
  | a, nan => a
  | posInf, _ => posInf
  | _, posInf => posInf
  | a, negInf => a
  | negInf, b => b
  | finite a, finite b => finite (max a b)

/-- IEEE subtraction on the modelled values. -/
def sub : F64 → F64 → F64
  | nan, _ => nan
  | _, nan => nan
  | posInf, posInf => nan
  | posInf, _ => posInf
  | negInf, negInf => nan
  | negInf, _ => negInf
  | finite _, posInf => negInf
  | finite _, negInf => posInf
  | finite a, finite b => finite (a - b)

/-- IEEE addition on the modelled values. -/
def add : F64 → F64 → F64
  | nan, _ => nan
  | _, nan => nan
  | posInf, negInf => nan
  | negInf, posInf => nan
  | posInf, _ => posInf
  | _, posInf => posInf
  | negInf, _ => negInf
  | _, negInf => negInf
  | finite a, finite b => finite (a + b)

/-- IEEE multiplication on the modelled values. -/
def mul : F64 → F64 → F64
  | nan, _ => nan
  | _, nan => nan
  | finite a, finite b => finite (a * b)
  | posInf, posInf => posInf
  | posInf, negInf => negInf
  | negInf, posInf => negInf
  | negInf, negInf => posInf
  | posInf, finite b => if 0 < b then posInf else if b < 0 then negInf else nan
  | finite a, posInf => if 0 < a then posInf else if a < 0 then negInf else nan
  | negInf, finite b => if 0 < b then negInf else if b < 0 then posInf else nan
  | finite a, negInf => if 0 < a then negInf else if a < 0 then posInf else nan

/-- `f64::abs`. -/
def fabs : F64 → F64
  | finite q => finite |q|
  | nan => nan
  | _ => posInf

/-- IEEE `<` (false whenever a NaN is involved). -/
def flt : F64 → F64 → Bool
  | nan, _ => false
  | _, nan => false
  | negInf, negInf => false
  | negInf, _ => true
  | _, negInf => false
  | posInf, _ => false
  | finite _, posInf => true
  | finite a, finite b => decide (a < b)

end F64

/-- `ChartContext` from `charts.rs`: owns one canvas. -/
structure ChartContext where
  canvas : BrailleCanvas
  deriving DecidableEq

namespace ChartContext

/-- `ChartContext::new`. -/
def new (width height : Nat) : ChartContext :=
  { canvas := BrailleCanvas.new width height }

/-- `get_auto_range`: filter non-finite points, take per-axis min/max with the
infinity-seeded folds of the source, widen degenerate spans to 1, and pad. -/
def get_auto_range (points : List (F64 × F64)) (padding : F64) :
    (F64 × F64) × (F64 × F64) :=
  let valid_points := points.filter (fun p => p.1.is_finite && p.2.is_finite)
  if valid_points.isEmpty then
    ((F64.finite 0, F64.finite 1), (F64.finite 0, F64.finite 1))
  else
    let mmx :=
      valid_points.foldl (fun mm p => (F64.fmin mm.1 p.1, F64.fmax mm.2 p.1))
        (F64.posInf, F64.negInf)
    let mmy :=
      valid_points.foldl (fun mm p => (F64.fmin mm.1 p.2, F64.fmax mm.2 p.2))
        (F64.posInf, F64.negInf)
    let eps := F64.finite (1 / 1000000000)
    let rx :=
      if F64.flt (F64.fabs (F64.sub mmx.2 mmx.1)) eps then F64.finite 1
      else F64.sub mmx.2 mmx.1
    let ry :=
      if F64.flt (F64.fabs (F64.sub mmy.2 mmy.1)) eps then F64.finite 1
      else F64.sub mmy.2 mmy.1
    ((F64.sub mmx.1 (F64.mul rx padding), F64.add mmx.2 (F64.mul rx padding)),
     (F64.sub mmy.1 (F64.mul ry padding), F64.add mmy.2 (F64.mul ry padding)))

end ChartContext

/-- The construction-time quantities every canvas operation must preserve:
cell dimensions, blend mode, and the lengths of the three parallel buffers. -/
def BrailleCanvas.dims (c : BrailleCanvas) : Nat × Nat × ColorBlend × Nat × Nat × Nat :=
  (c.width, c.height, c.blend_mode, c.buffer.length, c.colors.length, c.text_layer.length)

/-! ## Shared helper lemmas -/

namespace BrailleCanvas

theorem list_getD_set_self {α} (l : List α) (i : Nat) (x d : α) (h : i < l.length) :
    (l.set i x).getD i d = x := by
  simp [List.getD_eq_getElem?_getD, List.getElem?_set_self, h]

theorem list_getD_set_ne {α} (l : List α) (i j : Nat) (x d : α) (h : i ≠ j) :
    (l.set i x).getD j d = l.getD j d := by
  simp [List.getD_eq_getElem?_getD, List.getElem?_set_ne, h]

/-- The cell index addressed by an in-bounds sub-pixel coordinate is inside the
`width * height` buffers. -/
theorem idx_lt (c : BrailleCanvas) (px py : Nat)
    (hx : px < c.pixel_width) (hy : py < c.pixel_height) :
    c.idx (px / 2) (py / 4) < c.width * c.height := by
  unfold pixel_width at hx
  unfold pixel_height at hy
  unfold idx
  have h1 : px / 2 < c.width := by omega
  have h2 : py / 4 < c.height := by omega
  calc (py / 4) * c.width + px / 2 < (py / 4) * c.width + c.width := by omega
    _ = (py / 4 + 1) * c.width := by ring
    _ ≤ c.height * c.width := Nat.mul_le_mul_right _ (by omega)
    _ = c.width * c.height := Nat.mul_comm _ _

/-- In-bounds `set_pixel_impl`: the buffer update. -/
theorem set_pixel_impl_buffer (c : BrailleCanvas) (px py : Nat) (color : Option Color)
    (hx : px < c.pixel_width) (hy : py < c.pixel_height) :
    (c.set_pixel_impl px py color).buffer =
      c.buffer.set (c.idx (px / 2) (py / 4))
        (c.buffer.getD (c.idx (px / 2) (py / 4)) 0 ||| get_mask (px % 2) (py % 4)) := by
  unfold set_pixel_impl
  rw [if_neg (by omega)]

/-- In-bounds `set_pixel_impl` with a supplied color: the colors update per
blend mode. -/
theorem set_pixel_impl_colors (c : BrailleCanvas) (px py : Nat) (v : Color)
    (hx : px < c.pixel_width) (hy : py < c.pixel_height) :
    (c.set_pixel_impl px py (some v)).colors =
      match c.blend_mode with
      | ColorBlend.overwrite => c.colors.set (c.idx (px / 2) (py / 4)) (some v)
      | ColorBlend.keepFirst =>
        if c.colors.getD (c.idx (px / 2) (py / 4)) none = none then
          c.colors.set (c.idx (px / 2) (py / 4)) (some v)
        else c.colors := by
  unfold set_pixel_impl
  rw [if_neg (by omega)]

/-- `set_pixel_impl` never changes dimensions, blend mode, or buffer lengths. -/
theorem set_pixel_impl_dims (c : BrailleCanvas) (px py : Nat) (color : Option Color) :
    (c.set_pixel_impl px py color).width = c.width ∧
      (c.set_pixel_impl px py color).height = c.height ∧
      (c.set_pixel_impl px py color).blend_mode = c.blend_mode ∧
      (c.set_pixel_impl px py color).buffer.length = c.buffer.length ∧
      (c.set_pixel_impl px py color).colors.length = c.colors.length ∧
      (c.set_pixel_impl px py color).text_layer = c.text_layer := by
  unfold set_pixel_impl
  split
  · exact ⟨rfl, rfl, rfl, rfl, rfl, rfl⟩
  · refine ⟨rfl, rfl, rfl, by simp, ?_, rfl⟩
    rcases color with _ | v
    · rfl
    · cases c.blend_mode
      · simp
      · simp only
        split <;> simp

end BrailleCanvas

/-! ## C1 -/

namespace BrailleCanvas

/-- C1 counterexample: on a 1×1 canvas, the cartesian `set_pixel` at the
out-of-bounds sub-pixel coordinate `(0, 4)` (with `4 ≥ pixel_height()`) is not
ignored: it mutates the buffer. -/
theorem set_pixel_out_of_bounds_not_ignored :
    4 ≥ (BrailleCanvas.new 1 1).pixel_height ∧
      (BrailleCanvas.new 1 1).set_pixel 0 4 (some Color.red) ≠ BrailleCanvas.new 1 1 := by
  decide

/-- C1 (amended): the screen-space primitives `set_pixel_screen`,
`unset_pixel_screen` and `toggle_pixel_screen` silently ignore every
out-of-bounds sub-pixel coordinate, and the cartesian `set_pixel` and
`unset_pixel` ignore `px ≥ pixel_width()`; but a cartesian call with
`py ≥ pixel_height()` is clamped, behaving exactly as the screen-space
operation at `(px, 0)`. -/
theorem pixel_primitives_out_of_bounds (c : BrailleCanvas) (px py : Nat)
    (color : Option Color) :
    (px ≥ c.pixel_width ∨ py ≥ c.pixel_height →
      c.set_pixel_screen px py color = c ∧ c.unset_pixel_screen px py = c ∧
        c.toggle_pixel_screen px py color = c) ∧
    (px ≥ c.pixel_width → c.set_pixel px py color = c ∧ c.unset_pixel px py = c) ∧
    (py ≥ c.pixel_height →
      c.set_pixel px py color = c.set_pixel_impl px 0 color ∧
        c.unset_pixel px py = c.unset_pixel_impl px 0) := by
  refine ⟨fun h => ⟨?_, ?_, ?_⟩, fun h => ⟨?_, ?_⟩, fun h => ?_⟩
  · unfold set_pixel_screen set_pixel_impl
    rw [if_pos h]
  · unfold unset_pixel_screen unset_pixel_impl
    rw [if_pos h]
  · unfold toggle_pixel_screen
    rw [if_pos h]
  · unfold set_pixel set_pixel_impl
    rw [if_pos (Or.inl h)]
  · unfold unset_pixel unset_pixel_impl
    rw [if_pos (Or.inl h)]
  · have hz : c.pixel_height - 1 - py = 0 := by omega
    unfold set_pixel unset_pixel
    rw [hz]
    exact ⟨rfl, rfl⟩

/-- C1 witness: a concrete out-of-bounds ignore, and a concrete clamped call. -/
theorem pixel_primitives_out_of_bounds_witness :
    (BrailleCanvas.new 1 1).set_pixel_screen 2 0 none = BrailleCanvas.new 1 1 ∧
      (BrailleCanvas.new 1 1).set_pixel 0 4 none =
        (BrailleCanvas.new 1 1).set_pixel_impl 0 0 none :=
  ⟨((pixel_primitives_out_of_bounds (BrailleCanvas.new 1 1) 2 0 none).1
      (Or.inl (by decide))).1,
   ((pixel_primitives_out_of_bounds (BrailleCanvas.new 1 1) 0 4 none).2.2
      (by decide)).1⟩

end BrailleCanvas

/-! ## C3 -/

namespace BrailleCanvas

/-- C3: writing color `A` then color `B` to the same in-bounds sub-pixel via
`set_pixel_screen` leaves the cell's stored color as `A` under `KeepFirst`
(when the cell held no color before), and as `B` under `Overwrite`. -/
theorem blend_mode_color_semantics (c : BrailleCanvas) (px py : Nat) (A B : Color)
    (hx : px < c.pixel_width) (hy : py < c.pixel_height)
    (hlen : c.colors.length = c.width * c.height) :
    (c.blend_mode = ColorBlend.keepFirst →
      c.colors.getD (c.idx (px / 2) (py / 4)) none = none →
      ((c.set_pixel_screen px py (some A)).set_pixel_screen px py (some B)).colors.getD
        (c.idx (px / 2) (py / 4)) none = some A) ∧
    (c.blend_mode = ColorBlend.overwrite →
      ((c.set_pixel_screen px py (some A)).set_pixel_screen px py (some B)).colors.getD
        (c.idx (px / 2) (py / 4)) none = some B) := by
  have hi : c.idx (px / 2) (py / 4) < c.colors.length := hlen ▸ c.idx_lt px py hx hy
  have hd := c.set_pixel_impl_dims px py (some A)
  have hx1 : px < (c.set_pixel_impl px py (some A)).pixel_width := by
    unfold pixel_width
    rw [hd.1]
    exact hx
  have hy1 : py < (c.set_pixel_impl px py (some A)).pixel_height := by
    unfold pixel_height
    rw [hd.2.1]
    exact hy
  have hidx : (c.set_pixel_impl px py (some A)).idx (px / 2) (py / 4) =
      c.idx (px / 2) (py / 4) := by
    unfold idx
    rw [hd.1]
  constructor
  · intro hm hnone
    unfold set_pixel_screen
    rw [set_pixel_impl_colors _ px py B hx1 hy1, hidx,
      set_pixel_impl_colors c px py A hx hy, hd.2.2.1, hm]
    simp only
    rw [if_pos hnone, if_neg (by rw [list_getD_set_self _ _ _ _ hi]; simp)]
    exact list_getD_set_self _ _ _ _ hi
  · intro hm
    unfold set_pixel_screen
    rw [set_pixel_impl_colors _ px py B hx1 hy1, hidx,
      set_pixel_impl_colors c px py A hx hy, hd.2.2.1, hm]
    simp only
    rw [List.set_set]
    exact list_getD_set_self _ _ _ _ hi

/-- C3 witness: both blend modes exercised at the concrete pixel `(1, 2)` of a
2×2 canvas. -/
theorem blend_mode_color_semantics_witness :
    ((({ BrailleCanvas.new 2 2 with
          blend_mode := ColorBlend.keepFirst }.set_pixel_screen 1 2
          (some Color.red)).set_pixel_screen 1 2 (some Color.blue)).colors.getD
        ({ BrailleCanvas.new 2 2 with
           blend_mode := ColorBlend.keepFirst }.idx (1 / 2) (2 / 4)) none =
      some Color.red) ∧
    ((((BrailleCanvas.new 2 2).set_pixel_screen 1 2
          (some Color.red)).set_pixel_screen 1 2 (some Color.blue)).colors.getD
        ((BrailleCanvas.new 2 2).idx (1 / 2) (2 / 4)) none = some Color.blue) :=
  ⟨(blend_mode_color_semantics
      { BrailleCanvas.new 2 2 with blend_mode := ColorBlend.keepFirst } 1 2
      Color.red Color.blue (by decide) (by decide) (by decide)).1 (by decide) (by decide),
   (blend_mode_color_semantics (BrailleCanvas.new 2 2) 1 2
      Color.red Color.blue (by decide) (by decide) (by decide)).2 (by decide)⟩

end BrailleCanvas

/-! ## C4 -/

namespace BrailleCanvas

/-- C4: for an in-bounds sub-pixel coordinate, `unset_pixel_screen` ANDs out
the mask bit of its cell, and clears the cell's stored color exactly when the
resulting byte is zero (otherwise the stored color is untouched); the
cartesian `unset_pixel` is the same operation at the y-inverted coordinate. -/
theorem unset_pixel_clears_color_iff (c : BrailleCanvas) (px py : Nat)
    (hx : px < c.pixel_width) (hy : py < c.pixel_height)
    (hbuf : c.buffer.length = c.width * c.height)
    (hcol : c.colors.length = c.width * c.height) :
    (c.unset_pixel_screen px py).buffer.getD (c.idx (px / 2) (py / 4)) 0 =
      c.buffer.getD (c.idx (px / 2) (py / 4)) 0 &&& (255 ^^^ get_mask (px % 2) (py % 4)) ∧
    (c.unset_pixel_screen px py).colors.getD (c.idx (px / 2) (py / 4)) none =
      (if c.buffer.getD (c.idx (px / 2) (py / 4)) 0 &&&
            (255 ^^^ get_mask (px % 2) (py % 4)) = 0 then
          none
        else c.colors.getD (c.idx (px / 2) (py / 4)) none) ∧
    c.unset_pixel px py = c.unset_pixel_screen px (c.pixel_height - 1 - py) := by
  have hib : c.idx (px / 2) (py / 4) < c.buffer.length := hbuf ▸ c.idx_lt px py hx hy
  have hic : c.idx (px / 2) (py / 4) < c.colors.length := hcol ▸ c.idx_lt px py hx hy
  unfold unset_pixel_screen unset_pixel_impl
  rw [if_neg (by omega)]
  refine ⟨?_, ?_, rfl⟩
  · simp only
    exact list_getD_set_self _ _ _ _ hib
  · simp only
    split
    · exact list_getD_set_self _ _ _ _ hic
    · rfl

/-- C4 witness: the theorem instantiated on a 1×1 canvas holding two lit
sub-pixels, at the in-bounds coordinate `(0, 3)` (cartesian) / `(0, 0)`
(screen). -/
theorem unset_pixel_clears_color_iff_witness :
    (((BrailleCanvas.new 1 1).set_pixel_screen 0 0
        (some Color.red)).set_pixel_screen 1 0 (some Color.red)).unset_pixel 0 3 =
      (((BrailleCanvas.new 1 1).set_pixel_screen 0 0
          (some Color.red)).set_pixel_screen 1 0 (some Color.red)).unset_pixel_screen 0
        ((((BrailleCanvas.new 1 1).set_pixel_screen 0 0
            (some Color.red)).set_pixel_screen 1 0
            (some Color.red)).pixel_height - 1 - 3) :=
  (unset_pixel_clears_color_iff
    (((BrailleCanvas.new 1 1).set_pixel_screen 0 0
      (some Color.red)).set_pixel_screen 1 0 (some Color.red)) 0 3
    (by decide) (by decide) (by decide) (by decide)).2.2

end BrailleCanvas

/-! ## C5 -/

namespace BrailleCanvas

/-- Folding in-cell `set_pixel_screen` writes over a 1×1 canvas ORs the masks
into the single cell byte. -/
theorem fold_set_pixel_buffer (l : List (Nat × Nat)) :
    ∀ (m : Nat) (bm : ColorBlend) (cs : List (Option Color)) (ts : List (Option Char)),
      (∀ p ∈ l, p.1 < 2 ∧ p.2 < 4) →
      (l.foldl (fun (a : BrailleCanvas) p => a.set_pixel_screen p.1 p.2 none)
          { width := 1, height := 1, blend_mode := bm, buffer := [m],
            colors := cs, text_layer := ts }).buffer =
        [l.foldl (fun acc p => acc ||| get_mask p.1 p.2) m] := by
  induction l with
  | nil => intro m bm cs ts _; rfl
  | cons p l ih =>
    intro m bm cs ts hl
    have hp := hl p (List.mem_cons_self p l)
    have hstep :
        set_pixel_screen
          { width := 1, height := 1, blend_mode := bm, buffer := [m],
            colors := cs, text_layer := ts } p.1 p.2 none =
          { width := 1, height := 1, blend_mode := bm,
            buffer := [m ||| get_mask p.1 p.2], colors := cs, text_layer := ts } := by
      unfold set_pixel_screen set_pixel_impl
      rw [if_neg (by simp only [pixel_width, pixel_height]; omega)]
      simp only [idx, Nat.div_eq_of_lt hp.1, Nat.div_eq_of_lt hp.2,
        Nat.mod_eq_of_lt hp.1, Nat.mod_eq_of_lt hp.2]
      rfl
    rw [List.foldl_cons, hstep, List.foldl_cons]
    exact ih (m ||| get_mask p.1 p.2) bm cs ts (fun q hq => hl q (List.mem_cons_of_mem p hq))

/-- C5: the 8 in-cell masks are pairwise distinct single-bit bytes; a sequence
of in-cell pixel writes on a fresh 1×1 canvas ORs the masks together; and the
rendered glyph of a cell with mask `m` is the character at code point
`0x2800 + m`. -/
theorem braille_mask_layout :
    (∀ sx1 < 2, ∀ sy1 < 4, ∀ sx2 < 2, ∀ sy2 < 4,
      (get_mask sx1 sy1 = get_mask sx2 sy2 ↔ sx1 = sx2 ∧ sy1 = sy2)) ∧
    (∀ sx < 2, ∀ sy < 4, ∃ k < 8, get_mask sx sy = 2 ^ k) ∧
    (∀ l : List (Nat × Nat), (∀ p ∈ l, p.1 < 2 ∧ p.2 < 4) →
      (l.foldl (fun (a : BrailleCanvas) p => a.set_pixel_screen p.1 p.2 none)
          (BrailleCanvas.new 1 1)).buffer =
        [l.foldl (fun acc p => acc ||| get_mask p.1 p.2) 0]) ∧
    (∀ m ≤ 255,
      BrailleCanvas.render_with_options
          { width := 1, height := 1, blend_mode := ColorBlend.overwrite,
            buffer := [m], colors := [none], text_layer := [none] } false none =
        [Char.ofNat (0x2800 + m), '\n']) := by
  refine ⟨by decide, by decide, ?_, ?_⟩
  · intro l hl
    exact fold_set_pixel_buffer l 0 ColorBlend.overwrite [none] [none] hl
  · intro m hm
    have hv : 0x2800 + m < 0xD800 := by omega
    have hr : List.range 1 = [0] := rfl
    unfold render_with_options render_to render_row render_cols cell_char char_from_u32_or
    simp [hr, idx, hv]

/-- C5 witness: concrete instances of each quantified conjunct. -/
theorem braille_mask_layout_witness :
    (get_mask 0 0 = get_mask 1 3 ↔ (0 : Nat) = 1 ∧ (0 : Nat) = 3) ∧
    (∃ k < 8, get_mask 1 2 = 2 ^ k) ∧
    ([((0 : Nat), (0 : Nat)), (1, 1)].foldl
        (fun (a : BrailleCanvas) p => a.set_pixel_screen p.1 p.2 none)
        (BrailleCanvas.new 1 1)).buffer =
      [[((0 : Nat), (0 : Nat)), (1, 1)].foldl
        (fun acc p => acc ||| get_mask p.1 p.2) 0] ∧
    BrailleCanvas.render_with_options
        { width := 1, height := 1, blend_mode := ColorBlend.overwrite,
          buffer := [5], colors := [none], text_layer := [none] } false none =
      [Char.ofNat (0x2800 + 5), '\n'] :=
  ⟨braille_mask_layout.1 0 (by decide) 0 (by decide) 1 (by decide) 3 (by decide),
   braille_mask_layout.2.1 1 (by decide) 2 (by decide),
   braille_mask_layout.2.2.1 [(0, 0), (1, 1)] (by decide),
   braille_mask_layout.2.2.2 5 (by decide)⟩

end BrailleCanvas

/-! ## C6 -/

/-- C6: `get_auto_range` on `[(0,0),(10,20)]` with padding `0.1` returns the
ranges `(-1,11)` and `(-2,22)`; the empty point list, and any list whose
points are all non-finite, return the default `((0,1),(0,1))`. -/
theorem get_auto_range_spec :
    (ChartContext.get_auto_range
        [(F64.finite 0, F64.finite 0), (F64.finite 10, F64.finite 20)]
        (F64.finite (1 / 10)) =
      ((F64.finite (-1), F64.finite 11), (F64.finite (-2), F64.finite 22))) ∧
    (∀ padding, ChartContext.get_auto_range [] padding =
      ((F64.finite 0, F64.finite 1), (F64.finite 0, F64.finite 1))) ∧
    (∀ (points : List (F64 × F64)) (padding : F64),
      (∀ p ∈ points, p.1.is_finite = false ∨ p.2.is_finite = false) →
      ChartContext.get_auto_range points padding =
        ((F64.finite 0, F64.finite 1), (F64.finite 0, F64.finite 1))) := by
  refine ⟨?_, fun _ => rfl, ?_⟩
  · unfold ChartContext.get_auto_range
    norm_num [F64.is_finite, F64.fmin, F64.fmax, F64.sub, F64.add, F64.mul, F64.fabs,
      F64.flt, min_def, max_def, abs]
  intro points padding h
  unfold ChartContext.get_auto_range
  have hnil : points.filter (fun p => p.1.is_finite && p.2.is_finite) = [] := by
    rw [List.filter_eq_nil_iff]
    intro a ha
    rcases h a ha with h1 | h1 <;> simp [h1]
  rw [hnil]
  rfl

/-- C6 witness: an all-non-finite point list yielding the default range. -/
theorem get_auto_range_spec_witness :
    ChartContext.get_auto_range [(F64.nan, F64.finite 0), (F64.posInf, F64.finite 1)]
        (F64.finite (1 / 10)) =
      ((F64.finite 0, F64.finite 1), (F64.finite 0, F64.finite 1)) :=
  get_auto_range_spec.2.2 [(F64.nan, F64.finite 0), (F64.posInf, F64.finite 1)]
    (F64.finite (1 / 10)) (by decide)

/-! ## C7 -/

/-- C7: a `render()` call on a borrowed receiver leaves the canvas state
unchanged, and a second call on the resulting state returns the identical
string. -/
theorem render_idempotent_readonly (c : BrailleCanvas) :
    c.render_call.2 = c ∧
      (c.render_call.2.render_call).1 = c.render_call.1 ∧
      c.render_call.1 = c.render :=
  ⟨rfl, rfl, rfl⟩

/-! ## C8 -/

/-- C8: `render_with_options(false, None)` on a fresh all-clear 1×1 canvas is
exactly the blank Braille glyph `U+2800` followed by a newline — no border, no
title, no ANSI escapes. -/
theorem render_plain_blank_cell :
    (BrailleCanvas.new 1 1).render_with_options false none =
      [Char.ofNat 0x2800, '\n'] := by
  decide

/-! ## C10 -/

namespace BrailleCanvas

/-- C10: `set_char` with an in-bounds cell coordinate and a supplied color
stores that color unconditionally into the addressed cell's color entry,
whatever `blend_mode` is and whatever color the cell already held. -/
theorem set_char_color_unconditional (c : BrailleCanvas) (col row : Nat) (ch : Char)
    (v : Color) (hcol : col < c.width) (hrow : row < c.height)
    (hlen : c.colors.length = c.width * c.height) :
    (c.set_char col row ch (some v)).colors.getD
      (c.idx col (c.height - 1 - row)) none = some v := by
  have hinv : c.height - 1 - row < c.height := by omega
  have hi : c.idx col (c.height - 1 - row) < c.colors.length := by
    rw [hlen]
    unfold idx
    calc (c.height - 1 - row) * c.width + col
        < (c.height - 1 - row) * c.width + c.width := by omega
      _ = (c.height - 1 - row + 1) * c.width := by ring
      _ ≤ c.height * c.width := Nat.mul_le_mul_right _ (by omega)
      _ = c.width * c.height := Nat.mul_comm _ _
  unfold set_char
  rw [if_pos ⟨hcol, hinv⟩]
  simp only
  exact list_getD_set_self _ _ _ _ hi

/-- C10 witness: a `KeepFirst` canvas whose cell already holds red still gets
blue stored by `set_char`. -/
theorem set_char_color_unconditional_witness :
    ({ (BrailleCanvas.new 1 1).set_pixel_screen 0 0 (some Color.red) with
        blend_mode := ColorBlend.keepFirst }.set_char 0 0 'A'
        (some Color.blue)).colors.getD
      ({ (BrailleCanvas.new 1 1).set_pixel_screen 0 0 (some Color.red) with
         blend_mode := ColorBlend.keepFirst }.idx 0
        ({ (BrailleCanvas.new 1 1).set_pixel_screen 0 0 (some Color.red) with
           blend_mode := ColorBlend.keepFirst }.height - 1 - 0)) none =
      some Color.blue :=
  set_char_color_unconditional
    { (BrailleCanvas.new 1 1).set_pixel_screen 0 0 (some Color.red) with
      blend_mode := ColorBlend.keepFirst }
    0 0 'A' Color.blue (by decide) (by decide) (by decide)

end BrailleCanvas

/-! ## C9 -/

namespace BrailleCanvas

theorem dims_set_pixel_impl (c : BrailleCanvas) (px py : Nat) (color : Option Color) :
    (c.set_pixel_impl px py color).dims = c.dims := by
  have h := c.set_pixel_impl_dims px py color
  unfold dims
  rw [h.1, h.2.1, h.2.2.1, h.2.2.2.1, h.2.2.2.2.1, h.2.2.2.2.2]

theorem dims_unset_pixel_impl (c : BrailleCanvas) (px py : Nat) :
    (c.unset_pixel_impl px py).dims = c.dims := by
  unfold unset_pixel_impl dims
  split
  · rfl
  · simp only
    split <;> simp

theorem dims_set_pixel (c : BrailleCanvas) (px py : Nat) (color : Option Color) :
    (c.set_pixel px py color).dims = c.dims :=
  dims_set_pixel_impl c px (c.pixel_height - 1 - py) color

theorem dims_set_pixel_screen (c : BrailleCanvas) (px py : Nat) (color : Option Color) :
    (c.set_pixel_screen px py color).dims = c.dims :=
  dims_set_pixel_impl c px py color

theorem dims_unset_pixel (c : BrailleCanvas) (px py : Nat) :
    (c.unset_pixel px py).dims = c.dims :=
  dims_unset_pixel_impl c px (c.pixel_height - 1 - py)

theorem dims_unset_pixel_screen (c : BrailleCanvas) (px py : Nat) :
    (c.unset_pixel_screen px py).dims = c.dims :=
  dims_unset_pixel_impl c px py

theorem dims_toggle_pixel_screen (c : BrailleCanvas) (px py : Nat) (color : Option Color) :
    (c.toggle_pixel_screen px py color).dims = c.dims := by
  unfold toggle_pixel_screen
  split
  · rfl
  · simp only []
    split
    · exact dims_unset_pixel_impl c px py
    · exact dims_set_pixel_impl c px py color

theorem dims_foldl {α : Type} (f : BrailleCanvas → α → BrailleCanvas)
    (hf : ∀ c a, (f c a).dims = c.dims) (l : List α) :
    ∀ c : BrailleCanvas, (l.foldl f c).dims = c.dims := by
  induction l with
  | nil => intro c; rfl
  | cons a l ih => intro c; rw [List.foldl_cons, ih, hf]

theorem dims_bres_walk (x1 y1 sx sy dx dy : Int) (color : Option Color)
    (cartesian : Bool) :
    ∀ (fuel : Nat) (c : BrailleCanvas) (x y err : Int),
      (bres_walk x1 y1 sx sy dx dy color cartesian fuel c x y err).dims = c.dims := by
  intro fuel
  induction fuel with
  | zero => intro c x y err; rfl
  | succ fuel ih =>
    intro c x y err
    rw [bres_walk]
    split
    · split <;> [exact dims_set_pixel _ _ _ _; exact dims_set_pixel_screen _ _ _ _]
    · rw [ih]
      split <;> [exact dims_set_pixel _ _ _ _; exact dims_set_pixel_screen _ _ _ _]

theorem dims_bresenham (c : BrailleCanvas) (x0 y0 x1 y1 : Int) (color : Option Color)
    (cartesian : Bool) :
    (c.bresenham x0 y0 x1 y1 color cartesian).dims = c.dims := by
  unfold bresenham
  rcases h : clip_loop c 100 x0 y0 x1 y1 (c.compute_outcode x0 y0)
      (c.compute_outcode x1 y1) with _ | ⟨a0, b0, a1, b1⟩
  · rfl
  · exact dims_bres_walk _ _ _ _ _ _ _ _ _ _ _ _ _

theorem dims_line (c : BrailleCanvas) (x0 y0 x1 y1 : Int) (color : Option Color) :
    (c.line x0 y0 x1 y1 color).dims = c.dims :=
  dims_bresenham c x0 y0 x1 y1 color true

theorem dims_line_screen (c : BrailleCanvas) (x0 y0 x1 y1 : Int) (color : Option Color) :
    (c.line_screen x0 y0 x1 y1 color).dims = c.dims :=
  dims_bresenham c x0 y0 x1 y1 color false

theorem dims_rect (c : BrailleCanvas) (x y : Int) (w h : Nat) (color : Option Color) :
    (c.rect x y w h color).dims = c.dims := by
  unfold rect
  rw [dims_line_screen, dims_line_screen, dims_line_screen, dims_line_screen]

theorem dims_rect_filled (c : BrailleCanvas) (x y : Int) (w h : Nat)
    (color : Option Color) :
    (c.rect_filled x y w h color).dims = c.dims := by
  unfold rect_filled
  exact dims_foldl _ (fun c a => dims_line_screen c _ _ _ _ _) _ c

theorem dims_draw_octants (c : BrailleCanvas) (cx cy x y : Int) (color : Option Color) :
    (c.draw_octants cx cy x y color).dims = c.dims := by
  unfold draw_octants
  refine dims_foldl _ (fun c a => ?_) _ c
  split
  · exact dims_set_pixel _ _ _ _
  · rfl

theorem dims_circle_loop (cx cy : Int) (color : Option Color) :
    ∀ (n : Nat) (x y d : Int) (c : BrailleCanvas), (y + 1 - x).toNat ≤ n →
      (circle_loop cx cy color x y d c).dims = c.dims := by
  intro n
  induction n with
  | zero =>
    intro x y d c hn
    rw [circle_loop]
    rw [dif_neg (by omega)]
  | succ n ih =>
    intro x y d c hn
    rw [circle_loop]
    split
    · split
      · rw [ih _ _ _ _ (by omega), dims_draw_octants]
      · rw [ih _ _ _ _ (by omega), dims_draw_octants]
    · rfl

theorem dims_circle (c : BrailleCanvas) (xc yc r : Int) (color : Option Color) :
    (c.circle xc yc r color).dims = c.dims := by
  unfold circle
  rw [dims_circle_loop xc yc color (r + 1).toNat 0 r _ _ (by omega), dims_draw_octants]

theorem dims_draw_lines (c : BrailleCanvas) (cx cy x y : Int) (color : Option Color) :
    (c.draw_lines cx cy x y color).dims = c.dims := by
  unfold draw_lines
  rw [dims_line, dims_line, dims_line, dims_line]

theorem dims_circle_filled_loop (cx cy : Int) (color : Option Color) :
    ∀ (n : Nat) (x y d : Int) (c : BrailleCanvas), (y + 1 - x).toNat ≤ n →
      (circle_filled_loop cx cy color x y d c).dims = c.dims := by
  intro n
  induction n with
  | zero =>
    intro x y d c hn
    rw [circle_filled_loop]
    rw [dif_neg (by omega)]
  | succ n ih =>
    intro x y d c hn
    rw [circle_filled_loop]
    split
    · split
      · rw [ih _ _ _ _ (by omega), dims_draw_lines]
      · rw [ih _ _ _ _ (by omega), dims_draw_lines]
    · rfl

theorem dims_circle_filled (c : BrailleCanvas) (xc yc r : Int) (color : Option Color) :
    (c.circle_filled xc yc r color).dims = c.dims := by
  unfold circle_filled
  rw [dims_circle_filled_loop xc yc color (r + 1).toNat 0 r _ _ (by omega),
    dims_draw_lines]

theorem set_char_fields (c : BrailleCanvas) (col row : Nat) (ch : Char)
    (color : Option Color) :
    (c.set_char col row ch color).width = c.width ∧
      (c.set_char col row ch color).height = c.height ∧
      (c.set_char col row ch color).blend_mode = c.blend_mode ∧
      (c.set_char col row ch color).buffer = c.buffer ∧
      (c.set_char col row ch color).colors.length = c.colors.length ∧
      (c.set_char col row ch color).text_layer.length = c.text_layer.length := by
  rcases color with _ | v
  · unfold set_char
    simp only []
    split
    · exact ⟨rfl, rfl, rfl, rfl, rfl, by simp⟩
    · exact ⟨rfl, rfl, rfl, rfl, rfl, rfl⟩
  · unfold set_char
    simp only []
    split
    · exact ⟨rfl, rfl, rfl, rfl, by simp, by simp⟩
    · exact ⟨rfl, rfl, rfl, rfl, rfl, rfl⟩

theorem dims_set_char (c : BrailleCanvas) (col row : Nat) (ch : Char)
    (color : Option Color) :
    (c.set_char col row ch color).dims = c.dims := by
  have h := c.set_char_fields col row ch color
  unfold dims
  rw [h.1, h.2.1, h.2.2.1, h.2.2.2.1, h.2.2.2.2.1, h.2.2.2.2.2]

theorem dims_clear (c : BrailleCanvas) : c.clear.dims = c.dims := by
  unfold clear dims
  simp

/-- C9: the three parallel buffers of a canvas constructed by `new` all have
length `width * height`, and every operation of the engine preserves the cell
dimensions, the blend mode and all three buffer lengths (and rendering leaves
the canvas state untouched), so the invariant holds forever. -/
theorem buffer_lengths_invariant :
    (∀ w h : Nat, (BrailleCanvas.new w h).buffer.length = w * h ∧
      (BrailleCanvas.new w h).colors.length = w * h ∧
      (BrailleCanvas.new w h).text_layer.length = w * h) ∧
    (∀ (c : BrailleCanvas) (px py w h col row : Nat) (color : Option Color)
        (x0 y0 x1 y1 xc yc r x y : Int) (ch : Char),
      c.clear.dims = c.dims ∧
      (c.set_pixel px py color).dims = c.dims ∧
      (c.set_pixel_screen px py color).dims = c.dims ∧
      (c.unset_pixel px py).dims = c.dims ∧
      (c.unset_pixel_screen px py).dims = c.dims ∧
      (c.toggle_pixel_screen px py color).dims = c.dims ∧
      (c.line x0 y0 x1 y1 color).dims = c.dims ∧
      (c.line_screen x0 y0 x1 y1 color).dims = c.dims ∧
      (c.rect x y w h color).dims = c.dims ∧
      (c.rect_filled x y w h color).dims = c.dims ∧
      (c.circle xc yc r color).dims = c.dims ∧
      (c.circle_filled xc yc r color).dims = c.dims ∧
      (c.set_char col row ch color).dims = c.dims ∧
      c.render_call.2 = c) :=
  ⟨fun w h => ⟨by simp [BrailleCanvas.new], by simp [BrailleCanvas.new],
      by simp [BrailleCanvas.new]⟩,
   fun c px py w h col row color x0 y0 x1 y1 xc yc r x y ch =>
    ⟨dims_clear c, dims_set_pixel c px py color, dims_set_pixel_screen c px py color,
     dims_unset_pixel c px py, dims_unset_pixel_screen c px py,
     dims_toggle_pixel_screen c px py color, dims_line c x0 y0 x1 y1 color,
     dims_line_screen c x0 y0 x1 y1 color, dims_rect c x y w h color,
     dims_rect_filled c x y w h color, dims_circle c xc yc r color,
     dims_circle_filled c xc yc r color, dims_set_char c col row ch color, rfl⟩⟩

end BrailleCanvas

/-! ## C2 -/

namespace BrailleCanvas

theorem lor_ne_zero_of_land_ne_zero {a b : Nat} (h : a &&& b ≠ 0) : a ||| b ≠ 0 := by
  intro h0
  apply h
  have ha : a = 0 := by
    apply Nat.zero_of_testBit_eq_false
    intro i
    have hbit := congrArg (fun n => n.testBit i) h0
    simp only [Nat.testBit_or, Nat.zero_testBit, Bool.or_eq_false_iff] at hbit
    exact hbit.1
  simp [ha]

/-- A non-zero AND of the two outcodes means trivial reject: the clip loop
drops the segment on its first pass. -/
theorem clip_loop_reject (c : BrailleCanvas) (fuel : Nat) (x0 y0 x1 y1 : Int)
    (oc0 oc1 : Nat) (h : oc0 &&& oc1 ≠ 0) :
    clip_loop c (fuel + 1) x0 y0 x1 y1 oc0 oc1 = none := by
  rw [clip_loop]
  rw [if_neg (lor_ne_zero_of_land_ne_zero h), if_pos h]

theorem set_pixel_screen_fold (c : BrailleCanvas) (x y : Nat) (color : Option Color) :
    ∃ pts : List (Nat × Nat),
      (∀ p ∈ pts, p.1 < c.pixel_width ∧ p.2 < c.pixel_height) ∧
      c.set_pixel_screen x y color =
        pts.foldl (fun (a : BrailleCanvas) p => a.set_pixel_impl p.1 p.2 color) c := by
  by_cases h : x ≥ c.pixel_width ∨ y ≥ c.pixel_height
  · refine ⟨[], by simp, ?_⟩
    unfold set_pixel_screen set_pixel_impl
    rw [if_pos h]
    rfl
  · push_neg at h
    refine ⟨[(x, y)], ?_, rfl⟩
    intro p hp
    rw [List.mem_singleton] at hp
    subst hp
    exact ⟨h.1, h.2⟩

theorem set_pixel_fold (c : BrailleCanvas) (x y : Nat) (color : Option Color) :
    ∃ pts : List (Nat × Nat),
      (∀ p ∈ pts, p.1 < c.pixel_width ∧ p.2 < c.pixel_height) ∧
      c.set_pixel x y color =
        pts.foldl (fun (a : BrailleCanvas) p => a.set_pixel_impl p.1 p.2 color) c := by
  by_cases h : x ≥ c.pixel_width ∨ (c.pixel_height - 1 - y) ≥ c.pixel_height
  · refine ⟨[], by simp, ?_⟩
    unfold set_pixel set_pixel_impl
    rw [if_pos h]
    rfl
  · push_neg at h
    refine ⟨[(x, c.pixel_height - 1 - y)], ?_, rfl⟩
    intro p hp
    rw [List.mem_singleton] at hp
    subst hp
    exact ⟨h.1, h.2⟩

theorem pixel_dims_eq_of_dims_eq {c c' : BrailleCanvas} (h : c'.dims = c.dims) :
    c'.pixel_width = c.pixel_width ∧ c'.pixel_height = c.pixel_height := by
  have hw : c'.width = c.width := congrArg (fun t => t.1) h
  have hh : c'.height = c.height := congrArg (fun t => t.2.1) h
  unfold pixel_width pixel_height
  rw [hw, hh]
  exact ⟨rfl, rfl⟩

/-- The Bresenham walk only mutates the canvas through a sequence of
`set_pixel_impl` calls at coordinates inside the pixel rectangle. -/
theorem bres_walk_fold (x1 y1 sx sy dx dy : Int) (color : Option Color) (cart : Bool) :
    ∀ (fuel : Nat) (c : BrailleCanvas) (x y err : Int),
      ∃ pts : List (Nat × Nat),
        (∀ p ∈ pts, p.1 < c.pixel_width ∧ p.2 < c.pixel_height) ∧
        bres_walk x1 y1 sx sy dx dy color cart fuel c x y err =
          pts.foldl (fun (a : BrailleCanvas) p => a.set_pixel_impl p.1 p.2 color) c := by
  intro fuel
  induction fuel with
  | zero => intro c x y err; exact ⟨[], by simp, rfl⟩
  | succ fuel ih =>
    intro c x y err
    obtain ⟨pts0, hb0, hc1⟩ :
        ∃ pts0 : List (Nat × Nat),
          (∀ p ∈ pts0, p.1 < c.pixel_width ∧ p.2 < c.pixel_height) ∧
          (if cart then c.set_pixel (usize_of_int x) (usize_of_int y) color
            else c.set_pixel_screen (usize_of_int x) (usize_of_int y) color) =
            pts0.foldl (fun (a : BrailleCanvas) p => a.set_pixel_impl p.1 p.2 color) c := by
      cases cart
      · simpa using c.set_pixel_screen_fold (usize_of_int x) (usize_of_int y) color
      · simpa using c.set_pixel_fold (usize_of_int x) (usize_of_int y) color
    have hstep : bres_walk x1 y1 sx sy dx dy color cart (fuel + 1) c x y err =
        if x = x1 ∧ y = y1 then
          (if cart then c.set_pixel (usize_of_int x) (usize_of_int y) color
            else c.set_pixel_screen (usize_of_int x) (usize_of_int y) color)
        else
          bres_walk x1 y1 sx sy dx dy color cart fuel
            (if cart then c.set_pixel (usize_of_int x) (usize_of_int y) color
              else c.set_pixel_screen (usize_of_int x) (usize_of_int y) color)
            (if 2 * err ≥ dy then (err + dy, x + sx) else (err, x)).2
            (if 2 * err ≤ dx then
                ((if 2 * err ≥ dy then (err + dy, x + sx) else (err, x)).1 + dx, y + sy)
              else ((if 2 * err ≥ dy then (err + dy, x + sx) else (err, x)).1, y)).2
            (if 2 * err ≤ dx then
                ((if 2 * err ≥ dy then (err + dy, x + sx) else (err, x)).1 + dx, y + sy)
              else ((if 2 * err ≥ dy then (err + dy, x + sx) else (err, x)).1, y)).1 := rfl
    by_cases hxy : x = x1 ∧ y = y1
    · rw [hstep, if_pos hxy]
      exact ⟨pts0, hb0, hc1⟩
    · obtain ⟨pts1, hb1, heq1⟩ := ih
        (if cart then c.set_pixel (usize_of_int x) (usize_of_int y) color
          else c.set_pixel_screen (usize_of_int x) (usize_of_int y) color)
        ((if 2 * err ≥ dy then (err + dy, x + sx) else (err, x)).2)
        ((if 2 * err ≤ dx then
            ((if 2 * err ≥ dy then (err + dy, x + sx) else (err, x)).1 + dx, y + sy)
          else ((if 2 * err ≥ dy then (err + dy, x + sx) else (err, x)).1, y)).2)
        ((if 2 * err ≤ dx then
            ((if 2 * err ≥ dy then (err + dy, x + sx) else (err, x)).1 + dx, y + sy)
          else ((if 2 * err ≥ dy then (err + dy, x + sx) else (err, x)).1, y)).1)
      have hdims :
          (if cart then c.set_pixel (usize_of_int x) (usize_of_int y) color
            else c.set_pixel_screen (usize_of_int x) (usize_of_int y) color).dims =
            c.dims := by
        rw [hc1]
        exact dims_foldl _ (fun a p => dims_set_pixel_impl a p.1 p.2 color) pts0 c
      obtain ⟨hpw, hph⟩ := pixel_dims_eq_of_dims_eq hdims
      refine ⟨pts0 ++ pts1, ?_, ?_⟩
      · intro p hp
        rcases List.mem_append.mp hp with hp | hp
        · exact hb0 p hp
        · have hb := hb1 p hp
          rw [hpw, hph] at hb
          exact hb
      · rw [hstep, if_neg hxy, heq1, List.foldl_append, ← hc1]

theorem bresenham_fold (c : BrailleCanvas) (x0 y0 x1 y1 : Int) (color : Option Color)
    (cart : Bool) :
    ∃ pts : List (Nat × Nat),
      (∀ p ∈ pts, p.1 < c.pixel_width ∧ p.2 < c.pixel_height) ∧
      c.bresenham x0 y0 x1 y1 color cart =
        pts.foldl (fun (a : BrailleCanvas) p => a.set_pixel_impl p.1 p.2 color) c := by
  unfold bresenham
  rcases h : clip_loop c 100 x0 y0 x1 y1 (c.compute_outcode x0 y0)
      (c.compute_outcode x1 y1) with _ | ⟨a0, b0, a1, b1⟩
  · exact ⟨[], by simp, rfl⟩
  · exact bres_walk_fold a1 b1 _ _ _ _ color cart _ c a0 b0 _

/-- C2: a `line`/`line_screen` whose endpoint outcodes share a set bit is
trivially rejected and draws nothing; and in every case the canvas is mutated
only by `set_pixel_impl` calls at coordinates inside
`[0, pixel_width()) × [0, pixel_height())` — a line crossing the boundary
draws only its inside portion. -/
theorem line_clipping (c : BrailleCanvas) (x0 y0 x1 y1 : Int) (color : Option Color) :
    (c.compute_outcode x0 y0 &&& c.compute_outcode x1 y1 ≠ 0 →
      c.line x0 y0 x1 y1 color = c ∧ c.line_screen x0 y0 x1 y1 color = c) ∧
    (∃ pts : List (Nat × Nat),
      (∀ p ∈ pts, p.1 < c.pixel_width ∧ p.2 < c.pixel_height) ∧
      c.line x0 y0 x1 y1 color =
        pts.foldl (fun (a : BrailleCanvas) p => a.set_pixel_impl p.1 p.2 color) c) ∧
    (∃ pts : List (Nat × Nat),
      (∀ p ∈ pts, p.1 < c.pixel_width ∧ p.2 < c.pixel_height) ∧
      c.line_screen x0 y0 x1 y1 color =
        pts.foldl (fun (a : BrailleCanvas) p => a.set_pixel_impl p.1 p.2 color) c) := by
  refine ⟨fun h => ?_, c.bresenham_fold x0 y0 x1 y1 color true,
    c.bresenham_fold x0 y0 x1 y1 color false⟩
  have hnone : clip_loop c 100 x0 y0 x1 y1 (c.compute_outcode x0 y0)
      (c.compute_outcode x1 y1) = none :=
    clip_loop_reject c 99 x0 y0 x1 y1 _ _ h
  constructor
  · unfold line bresenham
    rw [hnone]
  · unfold line_screen bresenham
    rw [hnone]

/-- C2 witness: a segment entirely left of and below a 1×1 canvas is dropped
by both entry points. -/
theorem line_clipping_witness :
    (BrailleCanvas.new 1 1).compute_outcode (-5) (-3) &&&
        (BrailleCanvas.new 1 1).compute_outcode (-1) (-2) ≠ 0 ∧
      ((BrailleCanvas.new 1 1).line (-5) (-3) (-1) (-2) none = BrailleCanvas.new 1 1 ∧
        (BrailleCanvas.new 1 1).line_screen (-5) (-3) (-1) (-2) none =
          BrailleCanvas.new 1 1) :=
  ⟨by decide,
   (line_clipping (BrailleCanvas.new 1 1) (-5) (-3) (-1) (-2) none).1 (by decide)⟩

end BrailleCanvas
